import Mathlib

/-!
# Verification of the pixi.js geometry-buffer model

Shallow embedding of `src/plugins/geometry/src/Geometry.js` (class `Geometry`
and the module-level function `interleaveTypedArrays`).

Modelling conventions:
* Typed-array element values are modelled as mathematical integers (`Int`).
  No claim under verification depends on Float32 rounding or Uint16
  wrap-around, and JavaScript number arithmetic on the small integral values
  involved is exact.
* JavaScript object identity of `Buffer` instances is modelled by a numeric
  tag `bid`; every `new Buffer(...)` allocation inside a geometry takes the
  geometry's `nextId` counter as its tag, so distinct allocations get
  distinct tags.  `Array.prototype.indexOf` / `===` on buffers compares tags.
* A JavaScript object used as a string-keyed map (`this.attributes`) is an
  insertion-ordered association list; re-assigning an existing key keeps its
  position, which is how `for (i in obj)` enumerates keys.
* Attribute names are `List Char` (JS strings), so that `split('|')` can be
  given a direct recursive definition (`splitBar`).
* The `Buffer` and `Attribute` classes and `GLData.GL_SIZE_MAP` are imported
  by `Geometry.js` but their files are not part of the sampled sources; they
  are modelled from the spec (see the doc comments below).
-/

namespace PixiGeom

/-- Modelled from the spec: the scalar type tag carried by an `Attribute`
(`GLData.GL_SIZE_MAP` and the `Attribute` class are not among the sampled
sources).  Only the tags relevant to the geometry claims are included. -/
inductive AttrType where
  | FLOAT
  | UNSIGNED_SHORT
  | UNSIGNED_BYTE
deriving DecidableEq, Repr

/-- Modelled from the spec: `byteWidth(type)` — the per-component byte width
looked up through `GLData.GL_SIZE_MAP` (float32 is 4 bytes wide,
unsigned short 2, unsigned byte 1). -/
def byteWidth : AttrType → Nat
  | .FLOAT => 4
  | .UNSIGNED_SHORT => 2
  | .UNSIGNED_BYTE => 1

/-- Modelled from the spec: the `Buffer` class (not among the sampled
sources) owns one contiguous numeric array (`data`) and an index flag.
`bid` is the allocation tag standing in for JavaScript object identity. -/
structure Buffer where
  bid : Nat
  data : List Int
  index : Bool
deriving DecidableEq, Repr

/-- Modelled from the spec: the `Attribute` class (not among the sampled
sources) is a pure descriptor: buffer-list position, component count,
normalization flag, scalar type, stride, start and per-instance flag.
`stride` and `start` are `Option Nat` because `Geometry.addAttribute`
forwards them as `undefined` on its recursive multi-name path. -/
structure Attribute where
  buffer : Nat
  size : Nat
  normalized : Bool
  type : AttrType
  stride : Option Nat
  start : Option Nat
  instanced : Bool
deriving DecidableEq, Repr

/-- Modelled from the spec: the `Attribute` constructor; a missing `type`
argument defaults to float32 (raw attribute data is coerced to float32,
spec section 4.3). -/
def mkAttr (bufferIndex size : Nat) (norm : Bool) (t : Option AttrType)
    (strd strt : Option Nat) (inst : Bool) : Attribute :=
  { buffer := bufferIndex, size := size, normalized := norm,
    type := t.getD AttrType.FLOAT, stride := strd, start := strt,
    instanced := inst }

/-- The `Geometry` state: buffer list, insertion-ordered attribute map,
optional distinguished index buffer, and the allocation counter that
models the freshness of `new Buffer(...)` object identities. -/
structure Geometry where
  buffers : List Buffer
  attributes : List (List Char × Attribute)
  indexBuffer : Option Buffer
  nextId : Nat
deriving DecidableEq, Repr

/-- `new Geometry()` with no arguments. -/
def Geometry.empty : Geometry :=
  { buffers := [], attributes := [], indexBuffer := none, nextId := 0 }

/-- The `buffer` argument of `addAttribute` / `addIndex`: either raw numeric
data (a JS array or typed array, wrapped in a fresh `Buffer`) or an existing
`Buffer` object (recognized in the source by its `.data` field). -/
inductive BufferArg where
  | raw (d : List Int)
  | buf (b : Buffer)
deriving DecidableEq, Repr

/-- `String.prototype.split('|')` on a list of characters.  Matches the JS
semantics for a single-character separator, including empty pieces:
`"" ↦ [""]`, `"a|" ↦ ["a", ""]`, `"a||b" ↦ ["a", "", "b"]`. -/
def splitBar : List Char → List (List Char)
  | [] => [[]]
  | c :: rest =>
      if c = '|' then [] :: splitBar rest
      else
        match splitBar rest with
        | [] => [[c]]
        | p :: ps => (c :: p) :: ps

/-- `Array.prototype.indexOf` on the buffer list: position of the first
buffer with the given identity tag (JS `===` is object identity). -/
def indexOfBid (bs : List Buffer) (t : Nat) : Option Nat :=
  match bs with
  | [] => none
  | b :: rest => if b.bid = t then some 0 else (indexOfBid rest t).map (· + 1)

/-- Reading `obj[key]` from the attribute map. -/
def assocLookup (m : List (List Char × Attribute)) (k : List Char) : Option Attribute :=
  match m with
  | [] => none
  | p :: rest => if p.1 = k then some p.2 else assocLookup rest k

/-- Writing `obj[key] = v` into the attribute map: an existing key keeps its
position (JS property order), a new key is appended. -/
def assocSet (m : List (List Char × Attribute)) (k : List Char) (v : Attribute) :
    List (List Char × Attribute) :=
  match m with
  | [] => [(k, v)]
  | p :: rest => if p.1 = k then (k, v) :: rest else p :: assocSet rest k v

/-- One single-name attribute registration (`Geometry.addAttribute`, lines
96-106): look the buffer up by identity, append it only when absent, then
record the named `Attribute` at the resolved position. -/
def addAttributeOne (g : Geometry) (id : List Char) (b : Buffer) (size : Nat)
    (norm : Bool) (t : Option AttrType) (strd strt : Option Nat) (inst : Bool) :
    Geometry :=
  match indexOfBid g.buffers b.bid with
  | some k =>
      { g with attributes := assocSet g.attributes id (mkAttr k size norm t strd strt inst) }
  | none =>
      { g with
        buffers := g.buffers ++ [b],
        attributes :=
          assocSet g.attributes id
            (mkAttr g.buffers.length size norm t strd strt inst) }

/-- Coercion of the `buffer` argument (lines 72-82): raw data is wrapped in
a freshly allocated `Buffer` (allocation tag `g.nextId`); an existing
`Buffer` passes through unchanged. -/
def resolveBufferArg (g : Geometry) (a : BufferArg) : Buffer × Nat :=
  match a with
  | .raw d => ({ bid := g.nextId, data := d, index := false }, g.nextId + 1)
  | .buf b => (b, g.nextId)

/-- `Geometry.addAttribute` (lines 65-107).  A missing buffer argument
throws.  A name containing `'|'` is split and each piece is registered by a
recursive call that forwards only `(name, buffer, size, normalised, type)` —
since split pieces contain no `'|'` (lemma `splitBar_not_mem`) and the
buffer is already coerced, each recursive call is exactly `addAttributeOne`
with `stride`, `start` and `instance` at their defaults. -/
def addAttribute (g : Geometry) (id : List Char) (arg : Option BufferArg)
    (size : Nat) (norm : Bool) (t : Option AttrType) (strd strt : Option Nat)
    (inst : Bool) : Except String Geometry :=
  match arg with
  | none => .error "You must pass a buffer when creating an attribute"
  | some a =>
      if 1 < (splitBar id).length then
        .ok ((splitBar id).foldl
          (fun g' p =>
            addAttributeOne g' p (resolveBufferArg g a).1 size norm t none none false)
          { g with nextId := (resolveBufferArg g a).2 })
      else
        .ok (addAttributeOne { g with nextId := (resolveBufferArg g a).2 } id
          (resolveBufferArg g a).1 size norm t strd strt inst)

/-- `Geometry.getAttribute` (lines 115-118): returns
`this.buffers[this.attributes[id].buffer]` — a `Buffer`, not the
`Attribute` descriptor.  A missing attribute name or an out-of-range
buffer position yields `none` (the source would throw / yield
`undefined`). -/
def getAttribute (g : Geometry) (id : List Char) : Option Buffer :=
  (assocLookup g.attributes id).bind fun a => g.buffers.get? a.buffer

/-- `Geometry.addIndex` (lines 128-150): coerce raw data to a fresh
`Buffer`, set its index flag (an in-place mutation, so a buffer already in
the list is updated there too), point `indexBuffer` at it, and append it to
the list only when it is not already present by identity. -/
def addIndex (g : Geometry) (arg : BufferArg) : Geometry :=
  match (g.buffers.find? fun x => x.bid = (resolveBufferArg g arg).1.bid) with
  | some e =>
      { g with
        buffers := g.buffers.map fun x =>
          if x.bid = (resolveBufferArg g arg).1.bid then { x with index := true } else x,
        indexBuffer := some { e with index := true },
        nextId := (resolveBufferArg g arg).2 }
  | none =>
      { g with
        buffers := g.buffers ++ [{ (resolveBufferArg g arg).1 with index := true }],
        indexBuffer := some { (resolveBufferArg g arg).1 with index := true },
        nextId := (resolveBufferArg g arg).2 }

/-- `Geometry.getIndex` (lines 157-160). -/
def getIndex (g : Geometry) : Option Buffer :=
  g.indexBuffer

/-- `Geometry.destroy` (lines 215-233), with the teardown trace made
explicit: the result is the list of identity tags of the buffers destroyed,
in destruction order.  Line 217 iterates `this.glVertexArrayObjects.length`;
that cache is a plain object, its `.length` is `undefined`, so the VAO loop
body never runs and the cache is simply nulled.  Lines 224-227 destroy
every buffer in the list.  Line 230 then calls `this.indexBuffer.destroy()`
unconditionally — when `indexBuffer` is `null` this is a `TypeError`
(and when it is set, the index buffer, already destroyed by the list loop,
is destroyed a second time). -/
def destroy (g : Geometry) : Except String (List Nat) :=
  let destroyedBuffers := g.buffers.map (·.bid)
  match g.indexBuffer with
  | none => .error "TypeError: this.indexBuffer is null in Geometry.destroy"
  | some b => .ok (destroyedBuffers ++ [b.bid])

/-! ## interleave -/

/-- The destination position of flat source index `j` inside
`interleaveTypedArrays` (line 410): `((j / size | 0) * stride) + littleOffset
+ (j % size)`.  `j / size | 0` is truncating division on naturals. -/
def destIdx (size stride lo j : Nat) : Nat :=
  j / size * stride + lo + j % size

/-- The inner copy loop of `interleaveTypedArrays` (lines 408-414) for one
source array, with `j` the running flat index.  `List.set` drops an
out-of-range write, exactly as a typed-array store does. -/
def writeArr (out : List Int) (arr : List Int) (size stride lo j : Nat) : List Int :=
  match arr with
  | [] => out
  | x :: rest => writeArr (out.set (destIdx size stride lo j) x) rest size stride lo (j + 1)

/-- The outer loop of `interleaveTypedArrays` (lines 395-417): each array is
copied at its running column offset `littleOffset`, which then advances by
the array's per-vertex footprint. -/
def itaGo (out : List Int) (pairs : List (List Int × Nat)) (stride lo : Nat) : List Int :=
  match pairs with
  | [] => out
  | (arr, size) :: rest => itaGo (writeArr out arr size stride lo 0) rest stride (lo + size)

/-- `interleaveTypedArrays(arrays, sizes)` (lines 378-420).  The output
starts as a zero-filled 32-bit-word array of the summed input lengths
(`new ArrayBuffer(outSize * 4)` viewed as `Float32Array`); the stride is the
sum of the per-array footprints.  The source walks `arrays` and `sizes` in
lockstep by index, modelled by `zip` (its callers always pass lists of equal
length).  The per-scalar-type views over the shared `ArrayBuffer` are not
modelled: every claim under verification interleaves float32 data only, for
which all reads and writes go through the single `Float32Array` view. -/
def interleaveTypedArrays (arrays : List (List Int)) (sizes : List Nat) : List Int :=
  let pairs := arrays.zip sizes
  let outSize := (pairs.map (·.1.length)).sum
  let stride := (pairs.map (·.2)).sum
  itaGo (List.replicate outSize 0) pairs stride 0

/-- `Geometry.interleave` (lines 168-210).  Fast path: one buffer, or two
buffers one of which is the index buffer.  Otherwise: collect every
attribute's source array and footprint `size * byteWidth(type) / 4` (for
the 4-byte-wide float32 attributes of the claims this JS float division is
exactly the natural-number division used here), reset every attribute's
buffer position to 0, pack everything through `interleaveTypedArrays` into
one freshly allocated buffer, destroy the old non-index buffers (a pure
release, no effect on the resulting state), and keep the index buffer, when
present, as the second list entry.  An attribute whose buffer position is
out of range reads an empty array (the source would throw there).
`indexTail` is the tail of the rebuilt buffer list (lines 204-207): the
preserved index buffer, when present. -/
def indexTail : Option Buffer → List Buffer
  | some b => [b]
  | none => []

/-- See `indexTail` above: the main body of `Geometry.interleave`. -/
def interleave (g : Geometry) : Geometry :=
  if g.buffers.length = 1 ∨ (g.buffers.length = 2 ∧ g.indexBuffer.isSome) then g
  else
    { buffers :=
        { bid := g.nextId,
          data := interleaveTypedArrays
            (g.attributes.map fun p => ((g.buffers.get? p.2.buffer).map (·.data)).getD [])
            (g.attributes.map fun p => p.2.size * byteWidth p.2.type / 4),
          index := false } :: indexTail g.indexBuffer,
      attributes := g.attributes.map fun p => (p.1, { p.2 with buffer := 0 }),
      indexBuffer := g.indexBuffer,
      nextId := g.nextId + 1 }

/-! ## clone -/

/-- `Geometry.clone` (lines 240-271).  Every buffer is rebuilt as a fresh
object around a copy of its data (`new Buffer(this.buffers[i].data.slice())`,
index flag at its default `false`); the clone's allocation tags are its list
positions.  Every attribute descriptor is rebuilt with identical field
values, so the attribute map is copied as-is.  When an index buffer exists,
its position in the original list is looked up by identity and the clone's
`indexBuffer` is re-pointed at that position of the new list, setting its
index flag there (the flag mutation happens through the shared reference,
so the list entry and `indexBuffer` stay one object).  An orphan index
buffer (never produced by the API) would make the source throw on
`undefined.index`; here it leaves the clone's `indexBuffer` unset. -/
def clone (g : Geometry) : Geometry :=
  let bufs := (List.range g.buffers.length).map fun i =>
    { bid := i, data := ((g.buffers.get? i).map (·.data)).getD [], index := false }
  match g.indexBuffer with
  | none =>
      { buffers := bufs, attributes := g.attributes, indexBuffer := none,
        nextId := g.buffers.length }
  | some b =>
      match indexOfBid g.buffers b.bid with
      | none =>
          { buffers := bufs, attributes := g.attributes, indexBuffer := none,
            nextId := g.buffers.length }
      | some k =>
          let bufs' :=
            match bufs.get? k with
            | some e => bufs.set k { e with index := true }
            | none => bufs
          { buffers := bufs', attributes := g.attributes,
            indexBuffer := bufs'.get? k, nextId := g.buffers.length }

/-! ## merge -/

/-- `TypedArray.prototype.set(src, off)` (line 321): copy `src` into `dst`
starting at `off`.  The source throws a `RangeError` when the copy does not
fit; the claims only exercise fitting copies, for which this equation is
the JS behavior. -/
def arraySet (dst src : List Int) (off : Nat) : List Int :=
  if off + src.length ≤ dst.length then
    dst.take off ++ src ++ dst.drop (off + src.length)
  else dst

/-- The ToUint16 conversion a store into a `Uint16Array` applies: the
(integral) value reduced mod `2^16`.  Merge's output index array is
allocated with the last input's index-data constructor (line 310), which is
a `Uint16Array` for any index registered through `addIndex` (line 135) — the
case in every claim scenario — so the renumbering `+=` stores wrap. -/
def toUint16 (x : Int) : Int :=
  x % 65536

/-- The inner loop of merge's index renumbering (lines 364-367): add `v` to
`n` consecutive entries starting at position `start` (an out-of-range store
on a typed array is dropped, as `List.set` drops it); each store goes
through the output index array's ToUint16 conversion (see `toUint16`). -/
def addRange (data : List Int) (strt n : Nat) (v : Int) : List Int :=
  match n with
  | 0 => data
  | m + 1 => addRange (data.set strt (toUint16 ((data.getD strt 0) + v))) (strt + 1) m v

/-- Merge's index renumbering loop (lines 360-371): for each input geometry
(`lens` lists their index-data lengths), add the running `off` to its block
of the output index data, then advance `off` by `step` — the source computes
`step` from the loop-invariant `geometry` binding, which at this point holds
the LAST input geometry, so the increment is the same every iteration — and
advance the write position `off2` by the block length. -/
def offsetIndices (data : List Int) (lens : List Nat) (step off : Int) (off2 : Nat) : List Int :=
  match lens with
  | [] => data
  | n :: rest => offsetIndices (addRange data off2 n off) rest step (off + step) (off2 + n)

/-- Data of buffer slot `j` of a geometry (empty when the slot is absent,
where the source would throw). -/
def bufData (g : Geometry) (j : Nat) : List Int :=
  ((g.buffers.get? j).map (·.data)).getD []

/-- First slot position whose buffer is not the index buffer
(lines 339-346); when every buffer is the index buffer the source's
`bufferIndexToCount` keeps its initial value 0. -/
def firstNonIndexSlot (bs : List Buffer) (ibid : Nat) : Nat :=
  match bs.findIdx? (fun b => ¬ b.bid = ibid) with
  | some i => i
  | none => 0

/-- The per-vertex word stride of one buffer slot (lines 349-357): sum of
`size * byteWidth(type) / 4` over the attributes whose buffer position
(`attribute.buffer | 0`) equals the slot.  The source computes the quotient
in JS float arithmetic; for the 4-byte-wide float32 attributes of every
claim it is exact, and the natural-number division used here agrees. -/
def slotStride (attrs : List (List Char × Attribute)) (slot : Nat) : Nat :=
  attrs.foldl
    (fun s p =>
      if p.2.buffer = slot then s + p.2.size * byteWidth p.2.type / 4 else s)
    0

/-- Build the output buffer objects of merge (line 311): slot `i` of the new
geometry gets a fresh `Buffer` (tag `i`) around the assembled array. -/
def mkBuffers (ds : List (List Int)) (i : Nat) : List Buffer :=
  match ds with
  | [] => []
  | d :: rest => { bid := i, data := d, index := false } :: mkBuffers rest (i + 1)

/-- `Geometry.merge(geometries)` (lines 280-375).  `none` models the source
throwing: on an empty input (`geometry` stays `undefined`), on an orphan
index buffer (`buffers[-1].index`), and on an input lacking an index buffer
while the last input has one (`geometries[i].indexBuffer.data`).

Pass 1 sizes each slot as the summed data lengths over all inputs; one
zero-filled output array per slot of the LAST input is allocated; pass 2
copies every input's slot data at the slot's running write offset.  The two
source passes are geometry-major; since each slot's offset evolves
independently, they are assembled here slot-major (`slotMerged`), which
performs the identical sequence of writes per slot.  When the last input
has an index buffer, the output buffer at that input's index-buffer
position becomes the output index buffer, and its entries are renumbered by
`offsetIndices` with the per-iteration increment
`(last vertex-slot length) / stride` (see `offsetIndices` for the
loop-invariant binding).  The source computes that quotient in JS float
arithmetic; in every scenario a claim exercises the stride is nonzero and
divides the length exactly, so the natural-number division used here
agrees (a zero stride would make it JS `Infinity`, and an inexact quotient
would make the source write fractional values into the index data — both
outside the claims). -/
def merge (geometries : List Geometry) : Option Geometry :=
  match geometries.getLast? with
  | none => none
  | some last =>
      let slotMerged : Nat → List Int := fun j =>
        (geometries.foldl
          (fun acc g => (arraySet acc.1 (bufData g j) acc.2, acc.2 + (bufData g j).length))
          (List.replicate ((geometries.map fun g => (bufData g j).length).sum) 0, 0)).1
      let arrays := (List.range last.buffers.length).map slotMerged
      let outBufs := mkBuffers arrays 0
      match last.indexBuffer with
      | none =>
          some { buffers := outBufs, attributes := last.attributes,
                 indexBuffer := none, nextId := last.buffers.length }
      | some ib =>
          match indexOfBid last.buffers ib.bid with
          | none => none
          | some k =>
              if geometries.all (fun g => g.indexBuffer.isSome) then
                let slot := firstNonIndexSlot last.buffers ib.bid
                let stride := slotStride last.attributes slot
                let step : Int := ((bufData last slot).length / stride : Nat)
                let idxLens := geometries.map fun g =>
                  ((g.indexBuffer.map (·.data.length)).getD 0)
                let idxData := offsetIndices (((outBufs.get? k).map (·.data)).getD [])
                  idxLens step 0 0
                let outBufs' :=
                  match outBufs.get? k with
                  | some e => outBufs.set k { e with data := idxData, index := true }
                  | none => outBufs
                some { buffers := outBufs', attributes := last.attributes,
                       indexBuffer := outBufs'.get? k, nextId := last.buffers.length }
              else none

/-! ## Heap-refined clone

The deep-copy clause of the spec ("mutating the clone's buffer data must not
affect the original") is about array aliasing, which a purely functional
state cannot distinguish.  This refinement stores the raw arrays in an
explicit heap: a buffer holds a heap reference, `data.slice()` allocates a
fresh cell with copied contents, and a mutation is a `heapWrite`. -/

/-- The array heap: cell `r` holds one raw array. -/
abbrev Heap := List (List Int)

/-- Read heap cell `r` (an absent cell reads as empty). -/
def heapAt (h : Heap) (r : Nat) : List Int :=
  (h.get? r).getD []

/-- `arr[i] = v` through heap reference `r`. -/
def heapWrite (h : Heap) (r i : Nat) (v : Int) : Heap :=
  match h.get? r with
  | some arr => h.set r (arr.set i v)
  | none => h

/-- A buffer whose `data` lives in the heap. -/
structure HBuffer where
  ref : Nat
  index : Bool
deriving DecidableEq, Repr

/-- A geometry over heap-allocated buffers. -/
structure HGeometry where
  buffers : List HBuffer
  attributes : List (List Char × Attribute)
  indexBuffer : Option HBuffer
deriving DecidableEq, Repr

/-- The buffer-copy loop of `Geometry.clone` (lines 244-247):
`new Buffer(this.buffers[i].data.slice())` — each step allocates a fresh
heap cell holding a copy of the source cell's contents. -/
def cloneBuffers (h : Heap) (bs : List HBuffer) : Heap × List HBuffer :=
  match bs with
  | [] => (h, [])
  | b :: rest =>
      ((cloneBuffers (h ++ [heapAt h b.ref]) rest).1,
        { ref := h.length, index := false } ::
          (cloneBuffers (h ++ [heapAt h b.ref]) rest).2)

/-- Setting the index flag of the list entry at position `k` (the clone's
`indexBuffer.index = true` mutation acts on the shared object, hence on the
list entry); out of range, the list is unchanged. -/
def setIndexAt (bs : List HBuffer) (k : Nat) : List HBuffer :=
  match bs.get? k with
  | some e => bs.set k { e with index := true }
  | none => bs

/-- `Geometry.clone` over the heap (lines 240-271); structure as in
`clone`, with live heap references standing in for object identity. -/
def cloneH (h : Heap) (g : HGeometry) : Heap × HGeometry :=
  match g.indexBuffer with
  | none =>
      ((cloneBuffers h g.buffers).1,
        { buffers := (cloneBuffers h g.buffers).2, attributes := g.attributes,
          indexBuffer := none })
  | some b =>
      match g.buffers.findIdx? (fun x => x.ref = b.ref) with
      | none =>
          ((cloneBuffers h g.buffers).1,
            { buffers := (cloneBuffers h g.buffers).2, attributes := g.attributes,
              indexBuffer := none })
      | some k =>
          ((cloneBuffers h g.buffers).1,
            { buffers := setIndexAt (cloneBuffers h g.buffers).2 k,
              attributes := g.attributes,
              indexBuffer := (setIndexAt (cloneBuffers h g.buffers).2 k).get? k })

/-! ## Concrete geometries used by the claims -/

/-- A geometry with one size-1 float attribute `a` over the vertex data `d`
(one vertex per element) and the index buffer `[0, 1, 2]`; exactly the state
built by `addAttribute('a', d, 1)` followed by `addIndex([0, 1, 2])`
(lemma `geomSize1_reachable`). -/
def geomSize1 (d : List Int) : Geometry :=
  { buffers := [⟨0, d, false⟩, ⟨1, [0, 1, 2], true⟩],
    attributes := [(['a'], mkAttr 0 1 false none none none false)],
    indexBuffer := some ⟨1, [0, 1, 2], true⟩,
    nextId := 2 }

/-- `geomSize1 d` is reachable through the public API. -/
theorem geomSize1_reachable (d : List Int) :
    (addAttribute Geometry.empty ['a'] (some (.raw d)) 1 false none none none
        false).map (fun g => addIndex g (.raw [0, 1, 2])) =
      Except.ok (geomSize1 d) := by
  rfl

/-- A geometry with attributes but no index buffer: the result of
`new Geometry().addAttribute('p', [0, 0, 1, 0], 2)`. -/
def geomNoIndex : Geometry :=
  match addAttribute Geometry.empty ['p'] (some (.raw [0, 0, 1, 0])) 2 false
      none none none false with
  | .ok g => g
  | .error _ => Geometry.empty

/-- C1: the claim says `destroy()` on a geometry whose `indexBuffer` is not
set does not fail and skips index-buffer destruction.  The code violates
this: line 230 calls `this.indexBuffer.destroy()` unconditionally, a
`TypeError` when `indexBuffer` is `null`.  On the reachable geometry
`geomNoIndex` (one attribute registered, no index ever added) the embedded
`destroy` faithfully reaches that failure. -/
theorem destroy_throws_without_indexBuffer :
    geomNoIndex.indexBuffer = none ∧
      destroy geomNoIndex =
        Except.error "TypeError: this.indexBuffer is null in Geometry.destroy" := by
  constructor <;> rfl

/-- C2: the claim says that after processing input geometry `i`, merge's
running index offset advances by geometry `i`'s own vertex count (so the
indices copied from geometry `i` are shifted by the total vertex count of
geometries `0..i-1`).  The code instead advances the offset by the LAST
geometry's vertex count every iteration (line 369 reads the loop-invariant
`geometry` binding left over from pass 2).  Counterexample: merging a
3-vertex geometry with a 4-vertex geometry (both with one size-1 float
attribute and index data `[0, 1, 2]`) shifts the second block by 4, giving
`[0, 1, 2, 4, 5, 6]`, where the claim requires a shift by 3, i.e.
`[0, 1, 2, 3, 4, 5]`. -/
theorem merge_offsets_by_last_geometry :
    ((merge [geomSize1 [10, 20, 30],
             { geomSize1 [1, 2, 3, 4] with
                 buffers := [⟨0, [1, 2, 3, 4], false⟩, ⟨1, [0, 1, 2], true⟩] }]).bind
          (·.indexBuffer)).map (·.data) = some [0, 1, 2, 4, 5, 6] ∧
      some [0, 1, 2, 4, 5, 6] ≠ some ([0, 1, 2, 3, 4, 5] : List Int) := by
  constructor
  · decide
  · decide

/-- C9: `addAttribute` with no buffer argument fails immediately with the
explicit error of line 69, before any state is touched (the source throws
as its first statement, so the geometry's buffers and attributes are left
unchanged). -/
theorem addAttribute_requires_buffer (g : Geometry) (id : List Char)
    (size : Nat) (norm : Bool) (t : Option AttrType) (strd strt : Option Nat)
    (inst : Bool) :
    addAttribute g id none size norm t strd strt inst =
      Except.error "You must pass a buffer when creating an attribute" := by
  rfl

/-- C10: for an attribute name present in the map, `getAttribute` returns
the `Buffer` stored at that attribute's buffer position in the geometry's
buffer list (`this.buffers[this.attributes[id].buffer]`) — a `Buffer`, not
the `Attribute` descriptor. -/
theorem getAttribute_returns_positioned_buffer (g : Geometry) (id : List Char)
    (a : Attribute) (h : assocLookup g.attributes id = some a)
    (h2 : a.buffer < g.buffers.length) :
    getAttribute g id = some (g.buffers.get ⟨a.buffer, h2⟩) := by
  simp only [getAttribute, h, Option.bind_some]
  exact List.get?_eq_get h2

/-- Witness for C10 at a concrete geometry. -/
theorem getAttribute_returns_positioned_buffer_witness :
    assocLookup (geomSize1 [5]).attributes ['a'] =
        some (mkAttr 0 1 false none none none false) ∧
      getAttribute (geomSize1 [5]) ['a'] =
        some ((geomSize1 [5]).buffers.get
          ⟨(mkAttr 0 1 false none none none false).buffer, by decide⟩) :=
  ⟨by decide,
   getAttribute_returns_positioned_buffer (geomSize1 [5]) ['a']
     (mkAttr 0 1 false none none none false) (by decide) (by decide)⟩

/-- C5: `interleave` is idempotent: any first call leaves the geometry with
either a single buffer or a buffer plus the index buffer, so a second call
takes the no-op fast path of line 171 and returns the state unchanged. -/
theorem interleave_idempotent (g : Geometry) :
    ((interleave g).buffers.length = 1 ∨
        ((interleave g).buffers.length = 2 ∧ (interleave g).indexBuffer.isSome)) ∧
      interleave (interleave g) = interleave g := by
  by_cases h : g.buffers.length = 1 ∨ (g.buffers.length = 2 ∧ g.indexBuffer.isSome)
  · rw [interleave, if_pos h]
    exact ⟨h, by rw [interleave, if_pos h]⟩
  · have hfast : (interleave g).buffers.length = 1 ∨
        ((interleave g).buffers.length = 2 ∧ (interleave g).indexBuffer.isSome) := by
      rw [interleave, if_neg h]
      cases hib : g.indexBuffer with
      | none => left; simp [hib, indexTail]
      | some b => right; simp [hib, indexTail]
    refine ⟨hfast, ?_⟩
    conv_lhs => rw [interleave, if_pos hfast]

/-! ## Lemmas about the split / lookup helpers -/

/-- `splitBar` never returns the empty list . -/
theorem splitBar_ne_nil_aux (cs : List Char) : splitBar cs ≠ [] := by
  cases cs with
  | nil => simp [splitBar]
  | cons c rest =>
      by_cases hc : c = '|'
      · simp [splitBar, hc]
      · simp only [splitBar, if_neg hc]
        rcases splitBar rest with _ | ⟨q, qs⟩ <;> simp

/-- A piece produced by `split('|')` contains no separator. -/
theorem splitBar_not_mem : ∀ (cs : List Char), ∀ p ∈ splitBar cs, '|' ∉ p := by
  intro cs
  induction cs with
  | nil =>
      intro p hp
      simp only [splitBar, List.mem_singleton] at hp
      subst hp
      simp
  | cons c rest ih =>
      intro p hp
      by_cases hc : c = '|'
      · rw [show splitBar (c :: rest) = [] :: splitBar rest from by
            simp only [splitBar, if_pos hc]] at hp
        rcases List.mem_cons.mp hp with h1 | h1
        · subst h1; simp
        · exact ih p h1
      · rcases hq : splitBar rest with _ | ⟨q, qs⟩
        · exact absurd hq (splitBar_ne_nil_aux rest)
        · rw [show splitBar (c :: rest) = (c :: q) :: qs from by
              simp only [splitBar, if_neg hc, hq]] at hp
          rcases List.mem_cons.mp hp with h1 | h1
          · subst h1
            intro hmem
            rcases List.mem_cons.mp hmem with h2 | h2
            · exact hc h2.symm
            · exact ih q (hq ▸ List.mem_cons_self q qs) h2
          · exact ih p (hq ▸ List.mem_cons.mpr (Or.inr h1))

/-- A name containing the separator splits into at least two pieces. -/
theorem splitBar_length_of_mem : ∀ (cs : List Char), '|' ∈ cs → 2 ≤ (splitBar cs).length := by
  intro cs
  induction cs with
  | nil => intro h; cases h
  | cons c rest ih =>
      intro h
      by_cases hc : c = '|'
      · rw [show splitBar (c :: rest) = [] :: splitBar rest from by
            simp only [splitBar, if_pos hc]]
        have := List.length_pos.mpr (splitBar_ne_nil_aux rest)
        simp only [List.length_cons]
        omega
      · have hr : '|' ∈ rest := by
          rcases List.mem_cons.mp h with h1 | h1
          · exact absurd h1.symm hc
          · exact h1
        have h2 := ih hr
        rcases hq : splitBar rest with _ | ⟨q, qs⟩
        · exact absurd hq (splitBar_ne_nil_aux rest)
        · rw [show splitBar (c :: rest) = (c :: q) :: qs from by
              simp only [splitBar, if_neg hc, hq]]
          rw [hq] at h2
          simpa using h2

/-- A successful `indexOf` yields the position of a buffer with the looked-up
identity tag. -/
theorem indexOfBid_some_get : ∀ (bs : List Buffer) (t : Nat) (k : Nat),
    indexOfBid bs t = some k → ∃ b, bs.get? k = some b ∧ b.bid = t := by
  intro bs
  induction bs with
  | nil => intro t k h; simp [indexOfBid] at h
  | cons b rest ih =>
      intro t k h
      by_cases hb : b.bid = t
      · simp [indexOfBid, hb] at h
        subst h
        exact ⟨b, rfl, hb⟩
      · simp [indexOfBid, hb] at h
        rcases h with ⟨k', hk', rfl⟩
        rcases ih t k' hk' with ⟨b', hb', hbid⟩
        exact ⟨b', by simpa using hb', hbid⟩

/-- Appending the looked-up buffer after a failed `indexOf` puts it at the
old length. -/
theorem indexOfBid_append_self : ∀ (bs : List Buffer) (b : Buffer),
    indexOfBid bs b.bid = none → indexOfBid (bs ++ [b]) b.bid = some bs.length := by
  intro bs
  induction bs with
  | nil => intro b _; simp [indexOfBid]
  | cons x rest ih =>
      intro b h
      simp only [indexOfBid] at h
      by_cases hx : x.bid = b.bid
      · rw [if_pos hx] at h; simp at h
      · rw [if_neg hx] at h
        have h' : indexOfBid rest b.bid = none := by
          cases hi : indexOfBid rest b.bid with
          | none => rfl
          | some k => rw [hi] at h; simp at h
        show indexOfBid (x :: (rest ++ [b])) b.bid = some (rest.length + 1)
        simp only [indexOfBid, if_neg hx, ih b h']
        rfl

/-- Setting a key makes it readable. -/
theorem assocLookup_set_self : ∀ (m : List (List Char × Attribute)) (k : List Char)
    (v : Attribute), assocLookup (assocSet m k v) k = some v := by
  intro m
  induction m with
  | nil => intro k v; simp [assocSet, assocLookup]
  | cons p rest ih =>
      intro k v
      by_cases hp : p.1 = k
      · simp [assocSet, hp, assocLookup]
      · simp [assocSet, hp, assocLookup, ih]

/-- Setting one key leaves every other key unchanged. -/
theorem assocLookup_set_ne : ∀ (m : List (List Char × Attribute)) (k k' : List Char)
    (v : Attribute), k' ≠ k → assocLookup (assocSet m k v) k' = assocLookup m k' := by
  intro m
  induction m with
  | nil =>
      intro k k' v hne
      show assocLookup [(k, v)] k' = none
      simp only [assocLookup]
      rw [if_neg (show ¬k = k' from fun hh => hne hh.symm)]
  | cons p rest ih =>
      intro k k' v hne
      simp only [assocSet]
      by_cases hp : p.1 = k
      · rw [if_pos hp]
        simp only [assocLookup]
        rw [if_neg (show ¬k = k' from fun hh => hne hh.symm),
            if_neg (show ¬p.1 = k' from by rw [hp]; exact fun hh => hne hh.symm)]
      · rw [if_neg hp]
        simp only [assocLookup]
        by_cases hp' : p.1 = k'
        · rw [if_pos hp', if_pos hp']
        · rw [if_neg hp', if_neg hp', ih _ _ _ hne]

/-- Folding the same value over a list of keys not containing `q` leaves
`q`'s entry unchanged. -/
theorem foldAssoc_lookup_not_mem (v : Attribute) :
    ∀ (ps : List (List Char)) (m : List (List Char × Attribute)) (q : List Char),
      q ∉ ps → assocLookup (ps.foldl (fun m' p => assocSet m' p v) m) q = assocLookup m q := by
  intro ps
  induction ps with
  | nil => intro m q _; rfl
  | cons p rest ih =>
      intro m q hq
      have hqp : q ≠ p := fun hh => hq (hh ▸ List.mem_cons_self p rest)
      have hqr : q ∉ rest := fun hh => hq (List.mem_cons.mpr (Or.inr hh))
      simp only [List.foldl_cons]
      rw [ih _ _ hqr, assocLookup_set_ne _ _ _ _ hqp]

/-- After folding the same value over a list of keys, every key of the list
reads that value. -/
theorem foldAssoc_lookup_mem (v : Attribute) :
    ∀ (ps : List (List Char)) (m : List (List Char × Attribute)) (p : List Char),
      p ∈ ps → assocLookup (ps.foldl (fun m' q => assocSet m' q v) m) p = some v := by
  intro ps
  induction ps with
  | nil => intro m p h; cases h
  | cons q rest ih =>
      intro m p hp
      by_cases hmem : p ∈ rest
      · simpa using ih _ _ hmem
      · have hpq : p = q := by
          rcases List.mem_cons.mp hp with h1 | h1
          · exact h1
          · exact absurd h1 hmem
        subst hpq
        simp only [List.foldl_cons]
        rw [foldAssoc_lookup_not_mem _ _ _ _ hmem, assocLookup_set_self]

/-- Folding `addAttributeOne` over names while the shared buffer is already
present at position `k` never touches the buffer list, the index buffer or
the allocation counter, and acts on the attribute map as the plain
`assocSet` fold. -/
theorem fold_addAttributeOne_found (b : Buffer) (size : Nat) (norm : Bool)
    (t : Option AttrType) (k : Nat) :
    ∀ (ps : List (List Char)) (g : Geometry),
      indexOfBid g.buffers b.bid = some k →
      (ps.foldl (fun g' p => addAttributeOne g' p b size norm t none none false) g) =
        { g with attributes :=
            (ps.foldl (fun m p => assocSet m p (mkAttr k size norm t none none false))
              g.attributes) } := by
  intro ps
  induction ps with
  | nil => intro g _; rfl
  | cons p rest ih =>
      intro g hg
      simp only [List.foldl_cons]
      rw [show addAttributeOne g p b size norm t none none false =
            { g with attributes :=
                (assocSet g.attributes p (mkAttr k size norm t none none false)) } from by
          unfold addAttributeOne
          rw [hg]]
      exact ih _ hg

/-- C8: `addAttribute` with a separator in the name registers an attribute
under every split piece, all pieces referencing one common buffer-list
position `K` that holds the (single, at most once appended) shared buffer;
the registered descriptors carry the recursion's default `stride`, `start`
and `instance`; and no entry is registered under the unsplit name (the call
returns right after the loop). -/
theorem addAttribute_split_names (g : Geometry) (name : List Char)
    (arg : BufferArg) (size : Nat) (norm : Bool) (t : Option AttrType)
    (strd strt : Option Nat) (inst : Bool) (g' : Geometry)
    (hbar : '|' ∈ name)
    (h : addAttribute g name (some arg) size norm t strd strt inst = Except.ok g') :
    ∃ K b,
      (∀ p ∈ splitBar name,
          assocLookup g'.attributes p = some (mkAttr K size norm t none none false)) ∧
      g'.buffers.get? K = some b ∧
      b.bid = (resolveBufferArg g arg).1.bid ∧
      (g'.buffers = g.buffers ∨ g'.buffers = g.buffers ++ [(resolveBufferArg g arg).1]) ∧
      assocLookup g'.attributes name = assocLookup g.attributes name := by
  have hlen : 1 < (splitBar name).length := splitBar_length_of_mem name hbar
  have hname_notin : name ∉ splitBar name := by
    intro hmem
    exact splitBar_not_mem name name hmem hbar
  simp only [addAttribute] at h
  rw [if_pos hlen] at h
  injection h with h
  set rb := resolveBufferArg g arg with hrb
  set g1 : Geometry := { g with nextId := rb.2 } with hg1
  match hidx : indexOfBid g.buffers rb.1.bid with
  | some k =>
      have hidx1 : indexOfBid g1.buffers rb.1.bid = some k := hidx
      rw [fold_addAttributeOne_found rb.1 size norm t k _ g1 hidx1] at h
      rcases indexOfBid_some_get g.buffers rb.1.bid k hidx with ⟨b, hget, hbid⟩
      refine ⟨k, b, ?_, ?_, hbid, ?_, ?_⟩
      · intro p hp
        rw [← h]
        exact foldAssoc_lookup_mem _ _ _ _ hp
      · rw [← h]; exact hget
      · left; rw [← h]
      · rw [← h]
        exact foldAssoc_lookup_not_mem _ _ _ _ hname_notin
  | none =>
      rcases hsp : splitBar name with _ | ⟨p0, rest⟩
      · exact absurd hsp (splitBar_ne_nil_aux name)
      · rw [hsp] at h
        simp only [List.foldl_cons] at h
        have hstep : addAttributeOne g1 p0 rb.1 size norm t none none false =
            { g1 with
                buffers := (g1.buffers ++ [rb.1]),
                attributes := (assocSet g1.attributes p0
                  (mkAttr g1.buffers.length size norm t none none false)) } := by
          unfold addAttributeOne
          rw [show indexOfBid g1.buffers rb.1.bid = none from hidx]
        rw [hstep] at h
        have hfound : indexOfBid (g1.buffers ++ [rb.1]) rb.1.bid =
            some g1.buffers.length := indexOfBid_append_self _ _ hidx
        rw [fold_addAttributeOne_found rb.1 size norm t g1.buffers.length _ _ hfound] at h
        refine ⟨g.buffers.length, rb.1, ?_, ?_, rfl, ?_, ?_⟩
        · intro p hp
          rw [← h]
          rcases List.mem_cons.mp hp with h1 | h1
          · subst h1
            by_cases hmem : p ∈ rest
            · exact foldAssoc_lookup_mem _ _ _ _ hmem
            · rw [foldAssoc_lookup_not_mem _ _ _ _ hmem, assocLookup_set_self]
          · exact foldAssoc_lookup_mem _ _ _ _ h1
        · rw [← h]
          exact List.get?_concat_length _ _
        · right; rw [← h]
        · rw [← h]
          have hn0 : name ≠ p0 := fun hh =>
            hname_notin (by rw [hsp, hh]; exact List.mem_cons_self p0 rest)
          have hnr : name ∉ rest := fun hh =>
            hname_notin (by rw [hsp]; exact List.mem_cons.mpr (Or.inr hh))
          rw [foldAssoc_lookup_not_mem _ _ _ _ hnr, assocLookup_set_ne _ _ _ _ hn0]

/-- Witness for C8: registering `'a|b'` over raw data on an empty geometry. -/
theorem addAttribute_split_names_witness :
    ('|' ∈ ['a', '|', 'b'] ∧
        addAttribute Geometry.empty ['a', '|', 'b'] (some (.raw [1, 2, 3])) 1
            false none none none false =
          Except.ok
            { buffers := [⟨0, [1, 2, 3], false⟩],
              attributes :=
                [(['a'], mkAttr 0 1 false none none none false),
                 (['b'], mkAttr 0 1 false none none none false)],
              indexBuffer := none, nextId := 1 }) ∧
      ∃ K b,
        (∀ p ∈ splitBar ['a', '|', 'b'],
            assocLookup
                ({ buffers := [⟨0, [1, 2, 3], false⟩],
                   attributes :=
                     [(['a'], mkAttr 0 1 false none none none false),
                      (['b'], mkAttr 0 1 false none none none false)],
                   indexBuffer := none, nextId := 1 } : Geometry).attributes p =
              some (mkAttr K 1 false none none none false)) ∧
        ({ buffers := [⟨0, [1, 2, 3], false⟩],
           attributes :=
             [(['a'], mkAttr 0 1 false none none none false),
              (['b'], mkAttr 0 1 false none none none false)],
           indexBuffer := none, nextId := 1 } : Geometry).buffers.get? K = some b ∧
        b.bid = (resolveBufferArg Geometry.empty (.raw [1, 2, 3])).1.bid ∧
        (({ buffers := [⟨0, [1, 2, 3], false⟩],
            attributes :=
              [(['a'], mkAttr 0 1 false none none none false),
               (['b'], mkAttr 0 1 false none none none false)],
            indexBuffer := none, nextId := 1 } : Geometry).buffers =
            Geometry.empty.buffers ∨
          ({ buffers := [⟨0, [1, 2, 3], false⟩],
             attributes :=
               [(['a'], mkAttr 0 1 false none none none false),
                (['b'], mkAttr 0 1 false none none none false)],
             indexBuffer := none, nextId := 1 } : Geometry).buffers =
            Geometry.empty.buffers ++ [(resolveBufferArg Geometry.empty (.raw [1, 2, 3])).1]) ∧
        assocLookup
            ({ buffers := [⟨0, [1, 2, 3], false⟩],
               attributes :=
                 [(['a'], mkAttr 0 1 false none none none false),
                  (['b'], mkAttr 0 1 false none none none false)],
               indexBuffer := none, nextId := 1 } : Geometry).attributes ['a', '|', 'b'] =
          assocLookup Geometry.empty.attributes ['a', '|', 'b'] :=
  ⟨⟨by decide, by rfl⟩,
   addAttribute_split_names Geometry.empty ['a', '|', 'b'] (.raw [1, 2, 3]) 1
     false none none none false _ (by decide) (by rfl)⟩

/-! ## C7: the index buffer is never an orphan -/

/-- The invariant of spec section 3: whenever `indexBuffer` is set, the
referenced buffer is an element of the geometry's buffer list. -/
def hasIdx (g : Geometry) : Prop :=
  ∀ b, g.indexBuffer = some b → b ∈ g.buffers

/-- `addAttributeOne` keeps `indexBuffer` and only ever appends to the
buffer list, so the invariant is preserved. -/
theorem hasIdx_addAttributeOne (g : Geometry) (id : List Char) (b : Buffer)
    (size : Nat) (norm : Bool) (t : Option AttrType) (strd strt : Option Nat)
    (inst : Bool) (hg : hasIdx g) :
    hasIdx (addAttributeOne g id b size norm t strd strt inst) := by
  unfold addAttributeOne
  split
  · exact hg
  · intro b' hb'
    exact List.mem_append.mpr (Or.inl (hg b' hb'))

/-- The multi-name fold of `addAttribute` preserves the invariant. -/
theorem hasIdx_fold_addAttributeOne (b : Buffer) (size : Nat) (norm : Bool)
    (t : Option AttrType) :
    ∀ (ps : List (List Char)) (g : Geometry), hasIdx g →
      hasIdx (ps.foldl
        (fun g' p => addAttributeOne g' p b size norm t none none false) g) := by
  intro ps
  induction ps with
  | nil => intro g hg; exact hg
  | cons p rest ih =>
      intro g hg
      simp only [List.foldl_cons]
      exact ih _ (hasIdx_addAttributeOne _ _ _ _ _ _ _ _ _ hg)

/-- A successful `addAttribute` preserves the invariant. -/
theorem hasIdx_addAttribute (g : Geometry) (id : List Char)
    (arg : Option BufferArg) (size : Nat) (norm : Bool) (t : Option AttrType)
    (strd strt : Option Nat) (inst : Bool) (g' : Geometry) (hg : hasIdx g)
    (h : addAttribute g id arg size norm t strd strt inst = Except.ok g') :
    hasIdx g' := by
  match arg with
  | none => simp [addAttribute] at h
  | some a =>
      simp only [addAttribute] at h
      have hg1 : hasIdx ({ g with nextId := (resolveBufferArg g a).2 }) := hg
      split at h <;> injection h with h <;> rw [← h]
      · exact hasIdx_fold_addAttributeOne _ _ _ _ _ _ hg1
      · exact hasIdx_addAttributeOne _ _ _ _ _ _ _ _ _ hg1

/-- `addIndex` always re-establishes the invariant: the buffer that
`indexBuffer` is pointed at is either the (flag-updated) list entry found
by `indexOf`, or is appended. -/
theorem hasIdx_addIndex (g : Geometry) (arg : BufferArg) :
    hasIdx (addIndex g arg) := by
  unfold addIndex
  split
  case _ e heq =>
      intro b' hb'
      injection hb' with hb'
      have hmem := List.mem_of_find?_eq_some heq
      have hpred := List.find?_some heq
      have : (fun x => if x.bid = (resolveBufferArg g arg).1.bid then
          { x with index := true } else x) e = { e with index := true } := by
        simp only [if_pos (of_decide_eq_true hpred)]
      rw [← hb', ← this]
      exact List.mem_map_of_mem _ hmem
  case _ heq =>
      intro b' hb'
      injection hb' with hb'
      rw [← hb']
      exact List.mem_append.mpr (Or.inr (List.mem_singleton.mpr rfl))

/-- `interleave` always preserves the invariant: the fast path returns the
state unchanged, and the full path re-appends the index buffer. -/
theorem hasIdx_interleave (g : Geometry) (hg : hasIdx g) :
    hasIdx (interleave g) := by
  unfold interleave
  split
  · exact hg
  · intro b' hb'
    have hb2 : g.indexBuffer = some b' := hb'
    show b' ∈ _ :: indexTail g.indexBuffer
    rw [hb2]
    exact List.mem_cons.mpr (Or.inr (List.mem_singleton.mpr rfl))

/-- `clone` always yields a geometry satisfying the invariant: its
`indexBuffer` is either unset or read back out of the cloned list. -/
theorem hasIdx_clone (g : Geometry) : hasIdx (clone g) := by
  unfold clone
  split
  · intro b' hb'; cases hb'
  · split
    · intro b' hb'; cases hb'
    · intro b' hb'
      simp only at hb'
      exact List.get?_mem hb'

/-- `merge` always yields a geometry satisfying the invariant. -/
theorem hasIdx_merge (gs : List Geometry) (gm : Geometry)
    (h : merge gs = some gm) : hasIdx gm := by
  unfold merge at h
  split at h
  · cases h
  · split at h
    · injection h with h
      intro b' hb'
      rw [← h] at hb'
      cases hb'
    · split at h
      · cases h
      · split at h
        · injection h with h
          intro b' hb'
          rw [← h] at hb'
          simp only at hb'
          rw [← h]
          exact List.get?_mem hb'
        · cases h

/-- C7: every operation among `addAttribute`, `addIndex`, `interleave`,
`clone` and `merge` leaves the resulting geometry with its `indexBuffer`,
whenever set, an element of its buffer list (no orphan index buffer);
for `addAttribute` and `interleave` this is preservation from the input
geometry, for the others it holds outright. -/
theorem no_orphan_indexBuffer (g : Geometry) (hg : hasIdx g) :
    (∀ id arg size norm t strd strt inst g',
        addAttribute g id arg size norm t strd strt inst = Except.ok g' → hasIdx g') ∧
      (∀ arg, hasIdx (addIndex g arg)) ∧
      hasIdx (interleave g) ∧
      hasIdx (clone g) ∧
      (∀ gs gm, merge gs = some gm → hasIdx gm) :=
  ⟨fun id arg size norm t strd strt inst g' h =>
      hasIdx_addAttribute g id arg size norm t strd strt inst g' hg h,
   fun arg => hasIdx_addIndex g arg,
   hasIdx_interleave g hg,
   hasIdx_clone g,
   fun gs gm h => hasIdx_merge gs gm h⟩

/-- Witness for C7 at the empty geometry (whose unset `indexBuffer`
satisfies the invariant vacuously). -/
theorem no_orphan_indexBuffer_witness :
    hasIdx Geometry.empty ∧
      ((∀ id arg size norm t strd strt inst g',
          addAttribute Geometry.empty id arg size norm t strd strt inst =
            Except.ok g' → hasIdx g') ∧
        (∀ arg, hasIdx (addIndex Geometry.empty arg)) ∧
        hasIdx (interleave Geometry.empty) ∧
        hasIdx (clone Geometry.empty) ∧
        (∀ gs gm, merge gs = some gm → hasIdx gm)) :=
  And.intro (fun _ hb => nomatch hb)
    (no_orphan_indexBuffer Geometry.empty (fun _ hb => nomatch hb))

/-! ## C6: clone duplicates storage -/

/-- Cloning buffers only appends to the heap: pre-existing cells are
unchanged. -/
theorem cloneBuffers_heapAt : ∀ (bs : List HBuffer) (h : Heap) (r : Nat),
    r < h.length → heapAt (cloneBuffers h bs).1 r = heapAt h r := by
  intro bs
  induction bs with
  | nil => intro h r _; rfl
  | cons b rest ih =>
      intro h r hr
      show heapAt (cloneBuffers (h ++ [heapAt h b.ref]) rest).1 r = heapAt h r
      rw [ih _ r (by simp; omega)]
      unfold heapAt
      rw [List.get?_append hr]

/-- Cloning buffers never shrinks the heap. -/
theorem cloneBuffers_heap_le : ∀ (bs : List HBuffer) (h : Heap),
    h.length ≤ (cloneBuffers h bs).1.length := by
  intro bs
  induction bs with
  | nil => intro h; exact Nat.le_refl _
  | cons b rest ih =>
      intro h
      have := ih (h ++ [heapAt h b.ref])
      simp at this
      show h.length ≤ (cloneBuffers (h ++ [heapAt h b.ref]) rest).1.length
      omega

/-- One cloned buffer per source buffer. -/
theorem cloneBuffers_length : ∀ (bs : List HBuffer) (h : Heap),
    (cloneBuffers h bs).2.length = bs.length := by
  intro bs
  induction bs with
  | nil => intro h; rfl
  | cons b rest ih =>
      intro h
      show ({ ref := h.length, index := false } ::
        (cloneBuffers (h ++ [heapAt h b.ref]) rest).2).length = rest.length + 1
      simp [ih]

/-- Every cloned buffer references a cell allocated at or past the old heap
end — a fresh cell. -/
theorem cloneBuffers_ref_fresh : ∀ (bs : List HBuffer) (h : Heap),
    ∀ b' ∈ (cloneBuffers h bs).2, h.length ≤ b'.ref := by
  intro bs
  induction bs with
  | nil => intro h b' hb'; cases hb'
  | cons b rest ih =>
      intro h b' hb'
      rcases List.mem_cons.mp hb' with h1 | h1
      · subst h1; exact Nat.le_refl _
      · have := ih (h ++ [heapAt h b.ref]) b' h1
        simp at this
        omega

/-- The `i`-th cloned buffer's cell holds exactly the `i`-th source
buffer's data. -/
theorem cloneBuffers_content : ∀ (bs : List HBuffer) (h : Heap),
    (∀ b ∈ bs, b.ref < h.length) →
    ∀ (i : Nat) (b0 b1 : HBuffer), bs.get? i = some b0 →
      (cloneBuffers h bs).2.get? i = some b1 →
      heapAt (cloneBuffers h bs).1 b1.ref = heapAt h b0.ref := by
  intro bs
  induction bs with
  | nil => intro h _ i b0 b1 h0 _; simp at h0
  | cons b rest ih =>
      intro h hvalid i b0 b1 h0 h1
      match i with
      | 0 =>
          injection h0 with h0
          have h1' : ({ ref := h.length, index := false } : HBuffer) = b1 := by
            have : (cloneBuffers h (b :: rest)).2.get? 0 =
                some { ref := h.length, index := false } := rfl
            rw [this] at h1
            injection h1
          rw [← h1', ← h0]
          show heapAt (cloneBuffers (h ++ [heapAt h b.ref]) rest).1 h.length = heapAt h b.ref
          rw [cloneBuffers_heapAt rest _ h.length (by simp)]
          unfold heapAt
          rw [List.get?_concat_length]
          rfl
      | i' + 1 =>
          have h0' : rest.get? i' = some b0 := h0
          have h1' : (cloneBuffers (h ++ [heapAt h b.ref]) rest).2.get? i' = some b1 := h1
          have hvr : ∀ x ∈ rest, x.ref < (h ++ [heapAt h b.ref]).length := by
            intro x hx
            have := hvalid x (List.mem_cons.mpr (Or.inr hx))
            simp
            omega
          have hmem : b0 ∈ rest := List.get?_mem h0'
          have hb0 : b0.ref < h.length := hvalid b0 (List.mem_cons.mpr (Or.inr hmem))
          show heapAt (cloneBuffers (h ++ [heapAt h b.ref]) rest).1 b1.ref = heapAt h b0.ref
          rw [ih _ hvr i' b0 b1 h0' h1']
          unfold heapAt
          rw [List.get?_append hb0]

/-- Writing to a heap cell leaves every other cell unchanged. -/
theorem heapAt_heapWrite_ne (h : Heap) (r i : Nat) (v : Int) (r' : Nat)
    (hne : r ≠ r') : heapAt (heapWrite h r i v) r' = heapAt h r' := by
  unfold heapWrite
  split
  · unfold heapAt
    rw [List.get?_set_ne _ _ hne]
  · rfl

/-- Flipping an index flag changes no heap reference. -/
theorem setIndexAt_ref_map (bs : List HBuffer) (k : Nat) :
    (setIndexAt bs k).map (·.ref) = bs.map (·.ref) := by
  unfold setIndexAt
  split
  case _ e heq =>
      have hk : k < bs.length := by
        by_contra hk
        rw [List.get?_eq_none.mpr (Nat.le_of_not_lt hk)] at heq
        cases heq
      apply List.ext_get?
      intro n
      by_cases hn : k = n
      · subst hn
        rw [List.get?_map, List.get?_map, List.get?_set_eq_of_lt _ (by simpa using hk), heq]
        rfl
      · rw [List.get?_map, List.get?_map, List.get?_set_ne _ _ hn]
  · rfl

/-- Transfer of per-position refs through `setIndexAt`. -/
theorem setIndexAt_get?_ref (bs : List HBuffer) (k i : Nat) (b1 : HBuffer)
    (h1 : (setIndexAt bs k).get? i = some b1) :
    ∃ b0, bs.get? i = some b0 ∧ b0.ref = b1.ref := by
  have hmap := setIndexAt_ref_map bs k
  have : (bs.map (·.ref)).get? i = some b1.ref := by
    rw [← hmap, List.get?_map, h1]
    rfl
  rw [List.get?_map] at this
  cases h0 : bs.get? i with
  | none => rw [h0] at this; cases this
  | some b0 =>
      rw [h0] at this
      injection this with this
      exact ⟨b0, rfl, this⟩

/-- Ref-preserving membership through `setIndexAt`. -/
theorem setIndexAt_mem_ref (bs : List HBuffer) (k : Nat) (b' : HBuffer)
    (hb' : b' ∈ setIndexAt bs k) : ∃ b0 ∈ bs, b0.ref = b'.ref := by
  have : b'.ref ∈ bs.map (·.ref) := by
    rw [← setIndexAt_ref_map bs k]
    exact List.mem_map_of_mem _ hb'
  rcases List.mem_map.mp this with ⟨b0, hb0, hr⟩
  exact ⟨b0, hb0, hr⟩

/-- The clone's buffer list, before any index-flag fixup. -/
theorem cloneH_buffers_ref (h : Heap) (g : HGeometry) (b' : HBuffer)
    (hb' : b' ∈ (cloneH h g).2.buffers) :
    ∃ b0 ∈ (cloneBuffers h g.buffers).2, b0.ref = b'.ref := by
  unfold cloneH at hb'
  split at hb'
  · exact ⟨b', hb', rfl⟩
  · split at hb'
    · exact ⟨b', hb', rfl⟩
    · exact setIndexAt_mem_ref _ _ _ hb'

/-- The clone's heap is the buffer-copy heap in every branch. -/
theorem cloneH_heap (h : Heap) (g : HGeometry) :
    (cloneH h g).1 = (cloneBuffers h g.buffers).1 := by
  unfold cloneH
  split
  · rfl
  · split <;> rfl

/-- The clone's per-position refs agree with the plain buffer copies. -/
theorem cloneH_get?_ref (h : Heap) (g : HGeometry) (i : Nat) (b1 : HBuffer)
    (h1 : (cloneH h g).2.buffers.get? i = some b1) :
    ∃ b0, (cloneBuffers h g.buffers).2.get? i = some b0 ∧ b0.ref = b1.ref := by
  unfold cloneH at h1
  split at h1
  · exact ⟨b1, h1, rfl⟩
  · split at h1
    · exact ⟨b1, h1, rfl⟩
    · rcases setIndexAt_get?_ref _ _ _ _ h1 with ⟨b0, hb0, hr⟩
      exact ⟨b0, hb0, hr⟩

/-- The clone has as many buffers as the original. -/
theorem cloneH_length (h : Heap) (g : HGeometry) :
    (cloneH h g).2.buffers.length = g.buffers.length := by
  unfold cloneH
  split
  · exact cloneBuffers_length _ _
  · split
    · exact cloneBuffers_length _ _
    · show (setIndexAt (cloneBuffers h g.buffers).2 _).length = _
      unfold setIndexAt
      split
      · rw [List.length_set]; exact cloneBuffers_length _ _
      · exact cloneBuffers_length _ _

/-- C6: `clone` deep-copies buffer storage.  Over a heap in which the
original geometry's buffer references are live, the clone (i) has one
buffer per original buffer, (ii) each cloned buffer's cell holds data equal
to the corresponding original cell (`new Buffer(data.slice())`), and
(iii) the cells are distinct storage: writing any element through any
cloned buffer's reference leaves the data read through every original
buffer's reference exactly as it was before the clone. -/
theorem clone_duplicates_storage (h : Heap) (g : HGeometry)
    (hvalid : ∀ b ∈ g.buffers, b.ref < h.length) :
    (cloneH h g).2.buffers.length = g.buffers.length ∧
      (∀ i b0 b1, g.buffers.get? i = some b0 →
          (cloneH h g).2.buffers.get? i = some b1 →
          heapAt (cloneH h g).1 b1.ref = heapAt h b0.ref) ∧
      (∀ bc ∈ (cloneH h g).2.buffers, ∀ bo ∈ g.buffers, ∀ pos v,
          heapAt (heapWrite (cloneH h g).1 bc.ref pos v) bo.ref = heapAt h bo.ref) := by
  refine ⟨cloneH_length h g, ?_, ?_⟩
  · intro i b0 b1 h0 h1
    rcases cloneH_get?_ref h g i b1 h1 with ⟨b0', hb0', hr⟩
    rw [cloneH_heap, ← hr]
    exact cloneBuffers_content g.buffers h hvalid i b0 b0' h0 hb0'
  · intro bc hbc bo hbo pos v
    rcases cloneH_buffers_ref h g bc hbc with ⟨b0, hb0, hr⟩
    have hfresh : h.length ≤ bc.ref := by
      rw [← hr]
      exact cloneBuffers_ref_fresh g.buffers h b0 hb0
    have hold : bo.ref < h.length := hvalid bo hbo
    have hne : bc.ref ≠ bo.ref := by omega
    rw [cloneH_heap, heapAt_heapWrite_ne _ _ _ _ _ hne]
    exact cloneBuffers_heapAt g.buffers h bo.ref hold

/-- The one-buffer geometry of the C6 witness. -/
def hGeomW : HGeometry :=
  { buffers := [⟨0, false⟩], attributes := [], indexBuffer := none }

/-- The one-cell heap of the C6 witness. -/
def heapW : Heap := [[1, 2]]

/-- Witness for C6: a one-buffer geometry over a one-cell heap. -/
theorem clone_duplicates_storage_witness :
    (∀ b ∈ hGeomW.buffers, b.ref < heapW.length) ∧
      ((cloneH heapW hGeomW).2.buffers.length = hGeomW.buffers.length ∧
        (∀ i b0 b1, hGeomW.buffers.get? i = some b0 →
            (cloneH heapW hGeomW).2.buffers.get? i = some b1 →
            heapAt (cloneH heapW hGeomW).1 b1.ref = heapAt heapW b0.ref) ∧
        (∀ bc ∈ (cloneH heapW hGeomW).2.buffers, ∀ bo ∈ hGeomW.buffers, ∀ pos v,
            heapAt (heapWrite (cloneH heapW hGeomW).1 bc.ref pos v) bo.ref =
              heapAt heapW bo.ref)) :=
  And.intro (by decide) (clone_duplicates_storage heapW hGeomW (by decide))

/-! ## C3: the interleaved layout -/

/-- Writing an array into the output never changes the output's length. -/
theorem writeArr_length : ∀ (arr out : List Int) (size stride lo j : Nat),
    (writeArr out arr size stride lo j).length = out.length := by
  intro arr
  induction arr with
  | nil => intro out size stride lo j; rfl
  | cons x rest ih =>
      intro out size stride lo j
      show (writeArr (out.set (destIdx size stride lo j) x) rest size stride lo (j + 1)).length
        = out.length
      rw [ih]
      exact List.length_set out _ _

/-- The destination map of the copy loop is injective: distinct flat source
indices land on distinct output words (needs `0 < size ≤ stride`). -/
theorem destIdx_inj (size stride lo : Nat) (hs : 0 < size) (hss : size ≤ stride) :
    ∀ j1 j2, destIdx size stride lo j1 = destIdx size stride lo j2 → j1 = j2 := by
  intro j1 j2 heq
  unfold destIdx at heq
  have hm1 : j1 % size < size := Nat.mod_lt _ hs
  have hm2 : j2 % size < size := Nat.mod_lt _ hs
  have hd1 : size * (j1 / size) + j1 % size = j1 := Nat.div_add_mod j1 size
  have hd2 : size * (j2 / size) + j2 % size = j2 := Nat.div_add_mod j2 size
  have hq : j1 / size = j2 / size := by
    rcases Nat.lt_trichotomy (j1 / size) (j2 / size) with h | h | h
    · exfalso
      have h2 : (j1 / size + 1) * stride ≤ (j2 / size) * stride :=
        Nat.mul_le_mul_right stride (Nat.succ_le_of_lt h)
      rw [Nat.succ_mul] at h2
      omega
    · exact h
    · exfalso
      have h2 : (j2 / size + 1) * stride ≤ (j1 / size) * stride :=
        Nat.mul_le_mul_right stride (Nat.succ_le_of_lt h)
      rw [Nat.succ_mul] at h2
      omega
  rw [hq] at heq hd1
  omega

/-- Frame rule: an output position hit by none of the copy loop's writes is
left unchanged. -/
theorem writeArr_frame : ∀ (arr out : List Int) (size stride lo j i : Nat),
    (∀ k, k < arr.length → i ≠ destIdx size stride lo (j + k)) →
    (writeArr out arr size stride lo j).get? i = out.get? i := by
  intro arr
  induction arr with
  | nil => intro out size stride lo j i _; rfl
  | cons x rest ih =>
      intro out size stride lo j i hmiss
      show (writeArr (out.set (destIdx size stride lo j) x) rest size stride lo (j + 1)).get? i
        = out.get? i
      rw [ih _ _ _ _ _ _ (fun k hk => by
        have := hmiss (k + 1) (by simpa using Nat.succ_lt_succ hk)
        rwa [show j + (k + 1) = j + 1 + k by omega] at this)]
      exact List.get?_set_ne _ _ fun hh => hmiss 0 (Nat.succ_pos _) (by rw [Nat.add_zero, hh])

/-- Hit rule: after the copy loop, the output word addressed for flat source
index `k` holds the `k`-th source element (needs `0 < size ≤ stride` for the
later writes not to clobber it, and the address in range for the store not
to be dropped). -/
theorem writeArr_hit (size stride lo : Nat) (hs : 0 < size) (hss : size ≤ stride) :
    ∀ (arr out : List Int) (j k : Nat), k < arr.length →
      destIdx size stride lo (j + k) < out.length →
      (writeArr out arr size stride lo j).get? (destIdx size stride lo (j + k))
        = arr.get? k := by
  intro arr
  induction arr with
  | nil => intro out j k hk _; simp at hk
  | cons x rest ih =>
      intro out j k hk hlt
      match k with
      | 0 =>
          rw [Nat.add_zero] at hlt ⊢
          show (writeArr (out.set (destIdx size stride lo j) x) rest size stride lo
            (j + 1)).get? (destIdx size stride lo j) = some x
          rw [writeArr_frame rest _ size stride lo (j + 1) _ (fun k' hk' heq =>
            by have := destIdx_inj size stride lo hs hss _ _ heq; omega)]
          rw [List.get?_set_eq_of_lt _ (by simpa using hlt)]
      | k' + 1 =>
          have hk' : k' < rest.length := by simpa using Nat.lt_of_succ_lt_succ hk
          have hrw : j + (k' + 1) = j + 1 + k' := by omega
          rw [hrw] at hlt ⊢
          show (writeArr (out.set (destIdx size stride lo j) x) rest size stride lo
            (j + 1)).get? (destIdx size stride lo (j + 1 + k')) = rest.get? k'
          exact ih _ (j + 1) k' hk' (by rwa [List.length_set])

/-- `interleaveTypedArrays` on exactly two arrays is the two chained copy
loops. -/
theorem ita_two (a b : List Int) (sa sb : Nat) :
    interleaveTypedArrays [a, b] [sa, sb] =
      writeArr (writeArr (List.replicate (a.length + b.length) 0) a sa (sa + sb) 0 0)
        b sb (sa + sb) sa 0 := by
  unfold interleaveTypedArrays
  simp [itaGo]

/-- The geometry of C3: attributes `a` (size 2, float) over buffer 0 and
`b` (size 3, float) over buffer 1, no index buffer; exactly the state built
by `addAttribute('a', dA, 2)` then `addAttribute('b', dB, 3)` (lemma
`gAB_reachable`). -/
def gAB (dA dB : List Int) : Geometry :=
  { buffers := [⟨0, dA, false⟩, ⟨1, dB, false⟩],
    attributes := [(['a'], mkAttr 0 2 false none none none false),
                   (['b'], mkAttr 1 3 false none none none false)],
    indexBuffer := none,
    nextId := 2 }

/-- `gAB` is reachable through the public API. -/
theorem gAB_reachable (dA dB : List Int) :
    (addAttribute Geometry.empty ['a'] (some (.raw dA)) 2 false none none none
        false).bind
      (fun g => addAttribute g ['b'] (some (.raw dB)) 3 false none none none false) =
      Except.ok (gAB dA dB) := by
  rfl

/-- C3: interleaving two float attributes of sizes 2 and 3 over `N` vertices
produces a single buffer of `5 * N` words in which vertex `v`'s A-components
occupy words `5v, 5v+1` and its B-components words `5v+2 .. 5v+4`. -/
theorem interleave_two_float_attributes (N : Nat) (dA dB : List Int)
    (hN : 1 ≤ N) (hA : dA.length = 2 * N) (hB : dB.length = 3 * N) :
    ∃ out : List Int,
      (interleave (gAB dA dB)).buffers.map (·.data) = [out] ∧
      out.length = 5 * N ∧
      ∀ v, v < N →
        out.get? (5 * v) = dA.get? (2 * v) ∧
        out.get? (5 * v + 1) = dA.get? (2 * v + 1) ∧
        out.get? (5 * v + 2) = dB.get? (3 * v) ∧
        out.get? (5 * v + 3) = dB.get? (3 * v + 1) ∧
        out.get? (5 * v + 4) = dB.get? (3 * v + 2) := by
  refine ⟨interleaveTypedArrays [dA, dB] [2, 3], ?_, ?_, ?_⟩
  · simp [interleave, gAB, indexTail, mkAttr, byteWidth]
  · rw [ita_two, writeArr_length, writeArr_length, List.length_replicate]
    omega
  · intro v hv
    rw [ita_two, (show (2 + 3 : Nat) = 5 from rfl)]
    have hrepl : (List.replicate (dA.length + dB.length) (0 : Int)).length = 5 * N := by
      rw [List.length_replicate]; omega
    have hlenA : (writeArr (List.replicate (dA.length + dB.length) (0 : Int))
        dA 2 5 0 0).length = 5 * N := by
      rw [writeArr_length]; exact hrepl
    refine ⟨?_, ?_, ?_, ?_, ?_⟩
    · rw [show 5 * v = destIdx 2 5 0 (0 + 2 * v) from by unfold destIdx; omega]
      rw [writeArr_frame dB _ 3 5 2 0 _
        (fun k hk heq => by unfold destIdx at heq; omega)]
      exact writeArr_hit 2 5 0 (by omega) (by omega) dA _ 0 (2 * v) (by omega)
        (by unfold destIdx; rw [List.length_replicate]; omega)
    · rw [show 5 * v + 1 = destIdx 2 5 0 (0 + (2 * v + 1)) from by unfold destIdx; omega]
      rw [writeArr_frame dB _ 3 5 2 0 _
        (fun k hk heq => by unfold destIdx at heq; omega)]
      exact writeArr_hit 2 5 0 (by omega) (by omega) dA _ 0 (2 * v + 1) (by omega)
        (by unfold destIdx; rw [List.length_replicate]; omega)
    · rw [show 5 * v + 2 = destIdx 3 5 2 (0 + 3 * v) from by unfold destIdx; omega]
      exact writeArr_hit 3 5 2 (by omega) (by omega) dB _ 0 (3 * v) (by omega)
        (by unfold destIdx; rw [hlenA]; omega)
    · rw [show 5 * v + 3 = destIdx 3 5 2 (0 + (3 * v + 1)) from by unfold destIdx; omega]
      exact writeArr_hit 3 5 2 (by omega) (by omega) dB _ 0 (3 * v + 1) (by omega)
        (by unfold destIdx; rw [hlenA]; omega)
    · rw [show 5 * v + 4 = destIdx 3 5 2 (0 + (3 * v + 2)) from by unfold destIdx; omega]
      exact writeArr_hit 3 5 2 (by omega) (by omega) dB _ 0 (3 * v + 2) (by omega)
        (by unfold destIdx; rw [hlenA]; omega)

/-- Witness for C3: one vertex, `dA = [1, 2]`, `dB = [3, 4, 5]`. -/
theorem interleave_two_float_attributes_witness :
    (1 ≤ 1 ∧ ([1, 2] : List Int).length = 2 * 1 ∧ ([3, 4, 5] : List Int).length = 3 * 1) ∧
      (∃ out : List Int,
        (interleave (gAB [1, 2] [3, 4, 5])).buffers.map (·.data) = [out] ∧
        out.length = 5 * 1 ∧
        ∀ v, v < 1 →
          out.get? (5 * v) = ([1, 2] : List Int).get? (2 * v) ∧
          out.get? (5 * v + 1) = ([1, 2] : List Int).get? (2 * v + 1) ∧
          out.get? (5 * v + 2) = ([3, 4, 5] : List Int).get? (3 * v) ∧
          out.get? (5 * v + 3) = ([3, 4, 5] : List Int).get? (3 * v + 1) ∧
          out.get? (5 * v + 4) = ([3, 4, 5] : List Int).get? (3 * v + 2)) :=
  ⟨⟨by decide, by decide, by decide⟩,
   interleave_two_float_attributes 1 [1, 2] [3, 4, 5] (by decide) (by decide) (by decide)⟩

/-! ## C4: merging two equal-layout geometries -/

/-- A fitting `TypedArray.set` into the zero-filled output writes the data
at the front. -/
theorem arraySet_front (d : List Int) (n : Nat) (hd : d.length ≤ n) :
    arraySet (List.replicate n 0) d 0 = d ++ List.replicate (n - d.length) 0 := by
  unfold arraySet
  rw [if_pos (by simp; omega)]
  simp [List.drop_replicate]

/-- A fitting `TypedArray.set` after the copied prefix overwrites the
following zero block. -/
theorem arraySet_second (pre d : List Int) (m : Nat) (hm : d.length ≤ m) :
    arraySet (pre ++ List.replicate m 0) d pre.length =
      pre ++ d ++ List.replicate (m - d.length) 0 := by
  unfold arraySet
  rw [if_pos (by simp; omega)]
  rw [List.take_left, List.drop_append d.length, List.drop_replicate]

set_option maxHeartbeats 1000000 in
/-- Evaluation of `merge` on two `geomSize1` geometries: the vertex slot is
the concatenation, the index slot is two copies of `[0, 1, 2]` with the
second block shifted by the last geometry's vertex count. -/
theorem merge_geomSize1 (d1 d2 : List Int) :
    merge [geomSize1 d1, geomSize1 d2] =
      some { buffers := [⟨0, d1 ++ d2, false⟩,
                         ⟨1, [0, 1, 2, toUint16 (d2.length : Int),
                              toUint16 (1 + (d2.length : Int)),
                              toUint16 (2 + (d2.length : Int))], true⟩],
             attributes := [(['a'], mkAttr 0 1 false none none none false)],
             indexBuffer := some ⟨1, [0, 1, 2, toUint16 (d2.length : Int),
                              toUint16 (1 + (d2.length : Int)),
                              toUint16 (2 + (d2.length : Int))], true⟩,
             nextId := 2 } := by
  have hlast : ([geomSize1 d1, geomSize1 d2].getLast?) = some (geomSize1 d2) := rfl
  have hconc : arraySet (arraySet [0, 0, 0, 0, 0, 0] [0, 1, 2] 0) [0, 1, 2] 3
      = [0, 1, 2, 0, 1, 2] := rfl
  simp only [merge, hlast]
  simp only [geomSize1, mkAttr]
  simp only [indexOfBid, bufData, firstNonIndexSlot, slotStride, mkBuffers, offsetIndices,
    addRange, byteWidth]
  simp only [List.map_cons, List.map_nil, List.sum_cons, List.sum_nil, List.foldl_cons,
    List.foldl_nil]
  simp [hconc]
  rw [arraySet_front d1 _ (by omega),
    show d1.length + d2.length - d1.length = d2.length from by omega,
    arraySet_second d1 d2 d2.length (Nat.le_refl _)]
  simp
  refine ⟨by decide, by decide, by decide⟩

/-- C4 counterexample: the claim as stated fails for large `P`.  Merge's
output index array inherits the `Uint16Array` constructor of the last
input's index buffer, so the renumbering stores wrap mod `2^16`: at
`P = 65534` the program produces index data `[0, 1, 2, 65534, 65535, 0]`,
not the claimed `[0, 1, 2, P, P + 1, P + 2] = [0, 1, 2, 65534, 65535,
65536]`. -/
theorem merge_index_wraps_at_large_P :
    ((merge [geomSize1 (List.replicate 65534 0),
          geomSize1 (List.replicate 65534 0)]).bind (·.indexBuffer)).map (·.data) =
        some [0, 1, 2, 65534, 65535, 0] ∧
      some [0, 1, 2, (65534 : Int), (65534 : Int) + 1, (65534 : Int) + 2] ≠
        some ([0, 1, 2, 65534, 65535, 0] : List Int) := by
  constructor
  · rw [merge_geomSize1]
    simp only [Option.some_bind, Option.map_some', List.length_replicate, toUint16]
    decide
  · decide

/-- C4 (amended): merging two geometries with identical layout, `P`
vertices each (one size-1 float attribute) and index data `[0, 1, 2]`,
yields a vertex buffer of `2 * P` elements — the first geometry's data
followed by the second's — and the index buffer `[0, 1, 2, P, P + 1,
P + 2]`, provided `P + 2 < 2^16` so that the 16-bit index stores do not
wrap (see `merge_index_wraps_at_large_P` for the wrap beyond that). -/
theorem merge_two_equal_vertex_counts (P : Nat) (d1 d2 : List Int)
    (hP : 1 ≤ P) (hw : P + 2 < 65536) (h1 : d1.length = P) (h2 : d2.length = P) :
    ∃ gm, merge [geomSize1 d1, geomSize1 d2] = some gm ∧
      (gm.buffers.get? 0).map (·.data) = some (d1 ++ d2) ∧
      (d1 ++ d2).length = 2 * P ∧
      gm.indexBuffer.map (·.data) =
        some [0, 1, 2, (P : Int), (P : Int) + 1, (P : Int) + 2] := by
  refine ⟨_, merge_geomSize1 d1 d2, rfl, ?_, ?_⟩
  · simp [h1, h2]; omega
  · simp [h2, Int.add_comm, toUint16]
    omega

/-- Witness for the amended C4 at `P = 2`. -/
theorem merge_two_equal_vertex_counts_witness :
    (1 ≤ 2 ∧ 2 + 2 < 65536 ∧ ([10, 20] : List Int).length = 2 ∧
        ([30, 40] : List Int).length = 2) ∧
      (∃ gm, merge [geomSize1 [10, 20], geomSize1 [30, 40]] = some gm ∧
        (gm.buffers.get? 0).map (·.data) = some (([10, 20] : List Int) ++ [30, 40]) ∧
        (([10, 20] : List Int) ++ [30, 40]).length = 2 * 2 ∧
        gm.indexBuffer.map (·.data) =
          some [0, 1, 2, (2 : Int), (2 : Int) + 1, (2 : Int) + 2]) :=
  ⟨⟨by decide, by decide, by decide, by decide⟩,
   merge_two_equal_vertex_counts 2 [10, 20] [30, 40] (by decide) (by decide)
     (by decide) (by decide)⟩

end PixiGeom
